import Mathlib

/-!
Verification development for the `automationtool` repository.

Two engines are embedded shallowly:

* the highlight segment selector `find_clips_from_srt`
  (`src/modules/subtitle_clipper.py`), modelled over exact rationals
  (Python floats become `ℚ`, the division by 2 used by the code is exact);
* the publish slot allocator `ScheduleConfig`
  (`src/modules/schedule_config.py`), modelled with instants as `Int`
  minutes of local time in the configured timezone.  All date
  comparisons performed by the code go through
  `.astimezone(self.timezone).date()`, so working directly in local
  minutes is faithful; `date()` becomes floor division by 1440 and
  Python's `%`/`//` on ints match `Int.emod`/`Int.ediv` (`%`/`/` below).
-/

namespace AutomationTool

/-! ## Highlight segment selector (src/modules/subtitle_clipper.py) -/

/-- A subtitle segment as produced by `parse_srt`: start/end in seconds
plus the subtitle text.  (`end` is a Lean keyword, so the field is named
`stop`.) -/
structure Segment where
  start : ℚ
  stop : ℚ
  text : String
deriving DecidableEq

/-- A candidate clip as built by `find_clips_from_srt`. -/
structure Clip where
  start : ℚ
  stop : ℚ
  text : String
deriving DecidableEq

/-- Constant `max_overlap = 5` in `find_clips_from_srt` (line 57). -/
def maxOverlap : ℚ := 5

/-- Constant `max_extension = 5` in `find_clips_from_srt` (line 58). -/
def maxExtension : ℚ := 5

/-- Total duration: `segments[-1]['end'] if segments else 0` (line 61). -/
def totalDuration (segments : List Segment) : ℚ :=
  ((segments.getLast?).map (fun s => s.stop)).getD 0

/-- The characters of a string, lowercased: `s.lower()` viewed as a
character list (`String.toLower` is the string of exactly these
characters; the list form keeps the computation transparent). -/
def lowerChars (s : String) : List Char := s.toList.map Char.toLower

/-- Python's substring test `pat in txt`, on character lists: some
suffix of `txt` starts with `pat`. -/
def containsSub (pat : List Char) : List Char → Bool
  | [] => pat.isEmpty
  | c :: rest => pat.isPrefixOf (c :: rest) || containsSub pat rest

/-- Test `any(keyword.lower() in text for keyword in keywords)` (line 81)
against an already-lowercased text. -/
def matchesKeywords (keywords : List String) (textLower : List Char) : Bool :=
  keywords.any fun k => containsSub (lowerChars k) textLower

/-- Whether a segment is selected by the keyword test of lines 80-81:
`text = segment['text'].lower()` then `any(keyword.lower() in text ...)`. -/
def segMatches (keywords : List String) (seg : Segment) : Bool :=
  matchesKeywords keywords (lowerChars seg.text)

/-- Helper `ensure_min_duration` (lines 63-77): symmetric extension up to
`min_duration`, re-clamped at the timeline boundaries, pushing the
extension to the other side when one boundary is pinned.  The text
argument of the Python helper is returned unchanged, so it is omitted. -/
def ensureMinDuration (total_duration min_duration : ℚ) (start_time end_time : ℚ) :
    ℚ × ℚ :=
  if end_time - start_time < min_duration then
    let needed_extension := min_duration - (end_time - start_time)
    let s1 := max 0 (start_time - needed_extension / 2)
    let e1 := min total_duration (end_time + needed_extension / 2)
    if s1 = 0 then (s1, min total_duration (s1 + min_duration))
    else if e1 = total_duration then (max 0 (e1 - min_duration), e1)
    else (s1, e1)
  else (start_time, end_time)

/-- The symmetric trim applied when a clip exceeds
`max_duration + max_extension` (lines 104-108, repeated at 144-148 and
162-166). -/
def trimToMax (max_duration : ℚ) (start_time end_time : ℚ) : ℚ × ℚ :=
  if end_time - start_time > max_duration + maxExtension then
    let trim_amount := ((end_time - start_time) - (max_duration + maxExtension)) / 2
    (start_time + trim_amount, end_time - trim_amount)
  else (start_time, end_time)

/-- Flushing a pending clip: apply padding, `ensure_min_duration`, then
the max-duration trim (lines 94-108, also 124-125 with 138-148 and
156-166). -/
def finalizeClip (total_duration min_duration max_duration padding : ℚ)
    (c : Clip) : Clip :=
  let start_time := max 0 (c.start - padding)
  let end_time := c.stop + padding
  let p1 := ensureMinDuration total_duration min_duration start_time end_time
  let p2 := trimToMax max_duration p1.1 p1.2
  ⟨p2.1, p2.2, c.text⟩

/-- One iteration of the main loop of `find_clips_from_srt`
(lines 79-120), acting on the state `(clips, current_clip)`. -/
def selStep (keywords : List String)
    (total_duration min_duration max_duration padding : ℚ)
    (st : List Clip × Option Clip) (seg : Segment) : List Clip × Option Clip :=
  let text := seg.text.toLower
  if segMatches keywords seg then
    match st.2 with
    | none => (st.1, some ⟨seg.start, seg.stop, text⟩)
    | some c =>
      if seg.start - c.stop < maxOverlap then
        (st.1, some ⟨c.start, seg.stop, c.text ++ " " ++ text⟩)
      else
        (st.1 ++ [finalizeClip total_duration min_duration max_duration padding c],
         some ⟨seg.start, seg.stop, text⟩)
  else st

/-- Handling of the trailing `current_clip` after the loop
(lines 122-172): merge into the previous clip when the combined span
stays within `max_duration + max_extension`, otherwise normalize and
append. -/
def finishLast (total_duration min_duration max_duration padding : ℚ)
    (clips : List Clip) (cur : Option Clip) : List Clip :=
  match cur with
  | none => clips
  | some c =>
    let end_time := c.stop + padding
    match clips.getLast? with
    | some last_clip =>
      if end_time - last_clip.start ≤ max_duration + maxExtension then
        clips.dropLast ++ [⟨last_clip.start, end_time, last_clip.text ++ " " ++ c.text⟩]
      else
        clips ++ [finalizeClip total_duration min_duration max_duration padding c]
    | none =>
      clips ++ [finalizeClip total_duration min_duration max_duration padding c]

/-- Lines 176-186: insert a "Video Introduction" clip when the first
clip does not start at 0. -/
def addIntro (total_duration min_duration max_duration : ℚ)
    (clips : List Clip) : List Clip :=
  match clips.head? with
  | none => clips
  | some first =>
    if 0 < first.start then
      let e := min first.start (max_duration + maxExtension)
      let p := ensureMinDuration total_duration min_duration 0 e
      ⟨p.1, p.2, "Video Introduction"⟩ :: clips
    else clips

/-- Lines 188-198: append a "Video Conclusion" clip when the last clip
(after the possible insertion of the introduction) does not reach the
total duration. -/
def addConclusion (total_duration min_duration max_duration : ℚ)
    (clips : List Clip) : List Clip :=
  match clips.getLast? with
  | none => clips
  | some last_clip =>
    if last_clip.stop < total_duration then
      let s := max last_clip.stop (total_duration - (max_duration + maxExtension))
      let p := ensureMinDuration total_duration min_duration s total_duration
      clips ++ [⟨p.1, p.2, "Video Conclusion"⟩]
    else clips

/-- Edge synthesis (lines 174-198), guarded by `if clips:` in the code:
nothing is synthesized for an empty clip list. -/
def addEdges (total_duration min_duration max_duration : ℚ)
    (clips : List Clip) : List Clip :=
  match clips.head? with
  | none => clips
  | some _ =>
    addConclusion total_duration min_duration max_duration
      (addIntro total_duration min_duration max_duration clips)

/-- The final verification loop (lines 200-213); its body is exactly the
`ensure_min_duration` computation applied in place to every clip. -/
def finalAdjust (total_duration min_duration : ℚ) (c : Clip) : Clip :=
  let p := ensureMinDuration total_duration min_duration c.start c.stop
  ⟨p.1, p.2, c.text⟩

/-- Function `find_clips_from_srt` (lines 34-214), with the already-parsed
segment list in place of the SRT file (`parse_srt` is file input and is
performed upstream). -/
def findClipsFromSrt (segments : List Segment) (keywords : List String)
    (min_duration max_duration padding : ℚ) : List Clip :=
  let T := totalDuration segments
  let st := segments.foldl (selStep keywords T min_duration max_duration padding)
    ([], none)
  let clips := finishLast T min_duration max_duration padding st.1 st.2
  let clips := addEdges T min_duration max_duration clips
  clips.map (finalAdjust T min_duration)

/-- A transcript segment together with the quality score attached by
`TranscriptionHandler._calculate_segment_score`
(src/modules/transcription.py, lines 342-365); the selector claims
refer to these scores. -/
structure ScoredSegment where
  start : ℚ
  stop : ℚ
  text : String
  score : ℚ
deriving DecidableEq

/-- Modelled from the spec (§4.1 steps 2-3), for comparison with the
code's selector: the score of a candidate window is the mean of its
segments' scores plus a keyword bonus of 0.05 per matched keyword,
capped at 0.20.  No such computation exists in `find_clips_from_srt`;
this definition follows the spec's words so the scoring claim can be
stated against the code. -/
def windowScore (keywords : List String) (window : List ScoredSegment) : ℚ :=
  (window.map fun s => s.score).sum / window.length
    + min (((keywords.filter fun k =>
          window.any fun s => containsSub (lowerChars k) (lowerChars s.text)).length : ℚ)
        * (5 / 100))
      (2 / 10)

/-- The loop state of `find_clips_from_srt` holds something once a
keyword segment has been seen: some clip was flushed or one is pending. -/
def stateNonempty (st : List Clip × Option Clip) : Prop :=
  st.1 ≠ [] ∨ st.2 ≠ none

/-! ## Publish slot allocator (src/modules/schedule_config.py)

Instants are minutes of local time (the configured timezone) as `Int`.
`datetime.date()` is `dateOf` (floor division by 1440), `weekday()` is
`weekdayOf` with the epoch day 0 chosen to be a Monday (Python has
Monday = 0).  The final `astimezone(pytz.UTC)` performed on the returned
instant is a bijection on instants and does not change which instant is
returned, so results stay in local minutes. -/

/-- Calendar date (day number) of an instant, `t.date()`. -/
def dateOf (t : Int) : Int := t / 1440

/-- Python `weekday()` of a day number; day 0 is a Monday, matching Python's
Monday = 0 convention. -/
def weekdayOf (d : Int) : Int := d % 7

/-- One entry of the list returned by `fetch_scheduled_videos`, as the
allocator consumes it: the `scheduled_time` instant and the
`is_published` flag (lines 202-206, 213, 270-273). -/
structure Reservation where
  scheduledTime : Int
  isPublished : Bool
deriving DecidableEq

/-- Set `scheduled_dates` of line 213, the local dates of the fetched videos;
(line 213); also the per-day membership test of lines 270-273. -/
def reservedDates (resv : List Reservation) : List Int :=
  resv.map fun v => dateOf v.scheduledTime

/-- Template `self.daily_schedule`: one time of day per weekday, in minutes after
local midnight (`datetime.time` values, always in `[0, 1440)`). -/
structure DailyTemplate where
  monday : Int
  tuesday : Int
  wednesday : Int
  thursday : Int
  friday : Int
  saturday : Int
  sunday : Int
deriving DecidableEq

/-- Lookup of `self.daily_schedule[day_name]` where `day_name` is picked
from the weekday list by index (lines 217-220). -/
def DailyTemplate.timeFor (tpl : DailyTemplate) (w : Int) : Int :=
  if w = 0 then tpl.monday
  else if w = 1 then tpl.tuesday
  else if w = 2 then tpl.wednesday
  else if w = 3 then tpl.thursday
  else if w = 4 then tpl.friday
  else if w = 5 then tpl.saturday
  else tpl.sunday

/-- Every template entry is a genuine time of day: `datetime.time`
values always satisfy this, it is an intrinsic well-formedness fact of
the loaded configuration. -/
def validTemplate (tpl : DailyTemplate) : Prop :=
  (0 ≤ tpl.monday ∧ tpl.monday < 1440) ∧
  (0 ≤ tpl.tuesday ∧ tpl.tuesday < 1440) ∧
  (0 ≤ tpl.wednesday ∧ tpl.wednesday < 1440) ∧
  (0 ≤ tpl.thursday ∧ tpl.thursday < 1440) ∧
  (0 ≤ tpl.friday ∧ tpl.friday < 1440) ∧
  (0 ≤ tpl.saturday ∧ tpl.saturday < 1440) ∧
  (0 ≤ tpl.sunday ∧ tpl.sunday < 1440)

instance (tpl : DailyTemplate) : Decidable (validTemplate tpl) := by
  unfold validTemplate; infer_instance

/-- Flag `has_published_today` (lines 202-206): some fetched video is
published and scheduled on today's local date. -/
def hasPublishedToday (resv : List Reservation) (today : Int) : Bool :=
  resv.any fun v => v.isPublished && (dateOf v.scheduledTime == today)

/-- The day offset the search actually starts from: `day_offset` is
raised to 1 when a published video already sits on today's date
(lines 208-210). -/
def effectiveOffset (resv : List Reservation) (today : Int) (dayOffset : Nat) : Nat :=
  if hasPublishedToday resv today then max dayOffset 1 else dayOffset

/-- The candidate instant examined at `offset` days from the cursor's
date: `datetime.combine(target_date, self.daily_schedule[day_name])`
with `day_name` from `(local_time.weekday() + offset) % 7`
(lines 217-232). -/
def slotInstant (tpl : DailyTemplate) (t : Int) (offset : Nat) : Int :=
  (dateOf t + (offset : Int)) * 1440 +
    tpl.timeFor ((weekdayOf (dateOf t) + (offset : Int)) % 7)

/-- The `for offset in range(...)` search of lines 216-237, over an
explicit list of offsets: skip a date that already has a scheduled
video, return the first remaining template instant strictly after the
cursor. -/
def findNextAux (tpl : DailyTemplate) (dates : List Int) (t : Int) :
    List Nat → Option Int
  | [] => none
  | offset :: rest =>
    if (dateOf t + (offset : Int)) ∈ dates then findNextAux tpl dates t rest
    else if t < slotInstant tpl t offset then some (slotInstant tpl t offset)
    else findNextAux tpl dates t rest

/-- Method `get_next_publish_time` (lines 181-241): bump the offset past a
published-today video, then search the 14 offsets
`range(day_offset, day_offset + 14)`; `None` when the search fails. -/
def getNextPublishTime (tpl : DailyTemplate) (resv : List Reservation)
    (t : Int) (dayOffset : Nat) : Option Int :=
  let off0 := effectiveOffset resv (dateOf t) dayOffset
  findNextAux tpl (reservedDates resv) t ((List.range 14).map (· + off0))

/-- The failure paths of `fetch_scheduled_videos`: when the client
cannot be initialized (lines 327-332) or the network call raises
(lines 424-426), the function returns the empty list. -/
def fetchFailureResult : List Reservation := []

/-- The slot-collection loop of `get_schedule_for_videos`
(lines 262-283): walk forward one day at a time for at most 365
attempts, taking every date with no scheduled video at the hardcoded
time `time(20, 0)` (minute 1200), until `num_videos` slots are found.
The recursion is on the remaining attempts (fuel). -/
def findAvailableSlotsAux (dates : List Int) : Nat → Int → Nat → List Int
  | _, _, 0 => []
  | 0, _, _ + 1 => []
  | needed + 1, d, fuel + 1 =>
    if d ∈ dates then findAvailableSlotsAux dates (needed + 1) (d + 1) fuel
    else (d * 1440 + 1200) :: findAvailableSlotsAux dates needed (d + 1) fuel

/-- Method `get_schedule_for_videos` (lines 243-307), reduced to the scheduled
instants it assigns (the titles/metadata attached to each slot do not
affect the instants). -/
def getScheduleForVideos (resv : List Reservation) (numVideos : Nat)
    (today : Int) : List Int :=
  findAvailableSlotsAux (reservedDates resv) numVideos today 365

/-- Monday (week start date) of the ISO week containing an instant:
`local_time - timedelta(days=local_time.weekday())`, keyed by its date
(lines 476-478). -/
def mondayOf (t : Int) : Int := dateOf t - weekdayOf (dateOf t)

/-- The immediate-failure test of the interval loop (lines 459-465):
some consecutive pair of the (sorted, filtered) schedule is more than
one hour out of order.  Gaps are in minutes here, `-60` is the `-1`
hour bound. -/
def hasBadGap : List Int → Bool
  | a :: b :: rest => decide (b - a < -60) || hasBadGap (b :: rest)
  | _ => false

/-- The weekly-quota test (lines 471-485): some Monday-anchored week
holds more than `max_videos_per_week` of the instants.  The Python code
groups into a dict keyed by week start and checks each count; counting
the members of each instant's week class is extensionally the same. -/
def weekViolation (maxPerWeek : Nat) (future : List Int) : Bool :=
  future.any fun t =>
    maxPerWeek < (future.filter fun u => mondayOf u == mondayOf t).length

/-- Method `validate_schedule` (lines 428-487).  `min_interval_hours` is read
by the code only to emit a warning (lines 467-469), so it does not
influence the result. -/
def validateSchedule (now : Int) (minIntervalHours : Int) (maxPerWeek : Nat)
    (schedule : List Int) : Bool :=
  if schedule.isEmpty then false
  else
    let sorted := schedule.insertionSort (· ≤ ·)
    let future := sorted.filter fun s => now < s
    if future.isEmpty then false
    else if hasBadGap future then false
    else if weekViolation maxPerWeek future then false
    else true

/-! ## Configuration persistence (load_config / save_config)

The JSON config file is modelled structurally.  Time-of-day strings
("HH:MM") are modelled directly as minutes; a missing or unparsable
entry is `none` (both fall back to the same `20:00` default in
`load_config`). -/

/-- A weekday name, for `update_schedule`'s `day` argument. -/
inductive Day where
  | monday | tuesday | wednesday | thursday | friday | saturday | sunday
deriving DecidableEq

/-- In-memory `daily_schedule` dict: weekday name to time of day in
minutes. -/
structure DailyTimes where
  monday : Int
  tuesday : Int
  wednesday : Int
  thursday : Int
  friday : Int
  saturday : Int
  sunday : Int
deriving DecidableEq

/-- Assignment `self.daily_schedule[day.lower()] = new_time` (line 502). -/
def DailyTimes.set (d : DailyTimes) (day : Day) (v : Int) : DailyTimes :=
  match day with
  | .monday => { d with monday := v }
  | .tuesday => { d with tuesday := v }
  | .wednesday => { d with wednesday := v }
  | .thursday => { d with thursday := v }
  | .friday => { d with friday := v }
  | .saturday => { d with saturday := v }
  | .sunday => { d with sunday := v }

/-- The `schedule` section of the config file, as `load_config` reads it
(lines 122-135): flat keys `videos_per_day`, `min_interval_hours`,
`max_videos_per_week` and one time string per weekday name, each
optional. -/
structure ScheduleSection where
  videosPerDay : Option Nat
  minIntervalHours : Option Int
  maxVideosPerWeek : Option Nat
  monday : Option Int
  tuesday : Option Int
  wednesday : Option Int
  thursday : Option Int
  friday : Option Int
  saturday : Option Int
  sunday : Option Int
deriving DecidableEq

/-- The `schedule_config` section as `save_config` writes it
(lines 166-175): the daily schedule nested under `daily_schedule`, plus
the three parameters. -/
structure SavedScheduleConfig where
  dailySchedule : DailyTimes
  videosPerDay : Nat
  minIntervalHours : Int
  maxVideosPerWeek : Nat
deriving DecidableEq

/-- The master config file, restricted to the two sections touched by
`load_config` and `save_config`; either may be absent. -/
structure ConfigFile where
  schedule : Option ScheduleSection
  scheduleConfig : Option SavedScheduleConfig
deriving DecidableEq

/-- The in-memory schedule state held by a `ScheduleConfig` object. -/
structure ScheduleState where
  videosPerDay : Nat
  minIntervalHours : Int
  maxVideosPerWeek : Nat
  dailySchedule : DailyTimes
deriving DecidableEq

/-- The defaults of lines 123-135: `videos_per_day = 1`,
`min_interval_hours = 4`, `max_videos_per_week = 8`, every missing or
invalid day time falls back to `20:00` (minute 1200). -/
def loadSection (s : ScheduleSection) : ScheduleState where
  videosPerDay := s.videosPerDay.getD 1
  minIntervalHours := s.minIntervalHours.getD 4
  maxVideosPerWeek := s.maxVideosPerWeek.getD 8
  dailySchedule :=
    ⟨s.monday.getD 1200, s.tuesday.getD 1200, s.wednesday.getD 1200,
     s.thursday.getD 1200, s.friday.getD 1200, s.saturday.getD 1200,
     s.sunday.getD 1200⟩

/-- Method `load_config` (lines 115-153): read the `schedule` section; an
absent section behaves as the empty dict, so every field takes its
default.  (The `except` branch for an unreadable file, with its 11:00
weekend defaults, is not needed by the claims and is not modelled.) -/
def loadConfig (f : ConfigFile) : ScheduleState :=
  match f.schedule with
  | some s => loadSection s
  | none => loadSection ⟨none, none, none, none, none, none, none, none, none, none⟩

/-- Method `save_config` (lines 155-179): rewrite the `schedule_config` section
from the in-memory state, keeping the rest of the master config (in
particular the `schedule` section read by `load_config`) unchanged. -/
def saveConfig (st : ScheduleState) (f : ConfigFile) : ConfigFile :=
  { f with
    scheduleConfig := some (SavedScheduleConfig.mk st.dailySchedule
      st.videosPerDay st.minIntervalHours st.maxVideosPerWeek) }

/-- Method `update_schedule` (lines 489-505): set the day's time in memory and
persist via `save_config`.  Returns the new in-memory state and the new
file contents. -/
def updateSchedule (day : Day) (newTime : Int) (st : ScheduleState)
    (f : ConfigFile) : ScheduleState × ConfigFile :=
  let st1 := { st with dailySchedule := st.dailySchedule.set day newTime }
  (st1, saveConfig st1 f)

/-! ## fetch_scheduled_videos (lines 309-426)

The YouTube API calls are modelled by their documented behavior: the
channel's uploads playlist is a list of videos, and
`playlistItems().list(..., maxResults=50)` returns a single page of at
most the first 50 items (the code requests exactly one page, it never
passes a page token).  `videos().list(id=...)` then returns the details
of exactly the requested videos, so it is the identity on the taken
items here. -/

/-- A video of the uploads playlist with the status/snippet fields the
fetch reads: `status.publishAt`, `snippet.publishedAt` (instants, local
minutes) and `status.privacyStatus`. -/
structure YTVideo where
  videoId : Nat
  publishAt : Option Int
  publishedAt : Option Int
  privacyStatus : String
deriving DecidableEq

/-- One entry of the fetch result (lines 393-400), restricted to the
fields the allocator reads. -/
structure FetchedVideo where
  videoId : Nat
  scheduledTime : Int
  isPublished : Bool
deriving DecidableEq

/-- Field `video_time`: `status.publishAt` if present, else
`snippet.publishedAt` (lines 381-386). -/
def videoTimeOf (v : YTVideo) : Option Int :=
  match v.publishAt with
  | some t => some t
  | none => v.publishedAt

/-- The per-video filter of lines 374-403: keep a video if it has a
publish instant whose local date is today or later; it counts as
published when that date is today and the video is public. -/
def fetchEntry (today : Int) (v : YTVideo) : Option FetchedVideo :=
  match videoTimeOf v with
  | none => none
  | some t =>
    if today ≤ dateOf t then
      some ⟨v.videoId, t, (dateOf t == today) && (v.privacyStatus == "public")⟩
    else none

/-- Method `fetch_scheduled_videos` (success path, lines 334-422): take the
single `maxResults=50` page of the uploads playlist, build the entries,
and sort them by scheduled time (line 406). -/
def fetchScheduledVideos (playlist : List YTVideo) (today : Int) :
    List FetchedVideo :=
  ((playlist.take 50).filterMap (fetchEntry today)).insertionSort
    (fun a b => a.scheduledTime ≤ b.scheduledTime)

/-! ## Concrete instances used by the closed theorems -/

/-- A concrete template: every day at 20:00 local time (minute 1200). -/
def sampleTemplate : DailyTemplate := ⟨1200, 1200, 1200, 1200, 1200, 1200, 1200⟩

/-- A reservation set for the horizon analysis: a video published today
(day 0, 10:00) plus unpublished reservations on each of days 1-13, so
all 14 days of the window starting at day 0 carry a reservation while
day 14 is free. -/
def resvFullWindow : List Reservation :=
  ⟨600, true⟩ :: (List.range 13).map fun k => ⟨((k : Int) + 1) * 1440 + 600, false⟩

/-- A concrete master config: a `schedule` section with Monday..Friday
at 20:00 (minute 1200) and the weekend at 11:00 (minute 660), and no
`schedule_config` section yet. -/
def sampleConfigFile : ConfigFile :=
  ⟨some ⟨some 1, some 4, some 8, some 1200, some 1200, some 1200, some 1200,
      some 1200, some 660, some 660⟩, none⟩

/-- The three-segment input demonstrating that output clips can overlap
by far more than `max_overlap`. -/
def segsOverlapDemo : List Segment :=
  [⟨0, 1, "kw a"⟩, ⟨10, 11, "kw b"⟩, ⟨99, 100, "kw c"⟩]

/-! ## Allocator lemmas -/

theorem timeFor_valid {tpl : DailyTemplate} (hv : validTemplate tpl) (w : Int) :
    0 ≤ tpl.timeFor w ∧ tpl.timeFor w < 1440 := by
  obtain ⟨h1, h2, h3, h4, h5, h6, h7⟩ := hv
  unfold DailyTemplate.timeFor
  split_ifs <;> assumption

theorem dateOf_slot {d m : Int} (h0 : 0 ≤ m) (h1 : m < 1440) :
    dateOf (d * 1440 + m) = d := by
  unfold dateOf
  rw [show d * 1440 + m = m + 1440 * d by ring,
    Int.add_mul_ediv_left m d (by norm_num), Int.ediv_eq_zero_of_lt h0 h1]
  ring

theorem dateOf_slotInstant {tpl : DailyTemplate} (hv : validTemplate tpl)
    (t : Int) (off : Nat) :
    dateOf (slotInstant tpl t off) = dateOf t + (off : Int) := by
  unfold slotInstant
  exact dateOf_slot (timeFor_valid hv _).1 (timeFor_valid hv _).2

theorem findNextAux_none_iff (tpl : DailyTemplate) (dates : List Int) (t : Int)
    (offs : List Nat) :
    findNextAux tpl dates t offs = none ↔
      ∀ off ∈ offs,
        (dateOf t + (off : Int)) ∈ dates ∨ ¬ t < slotInstant tpl t off := by
  induction offs with
  | nil => simp [findNextAux]
  | cons off rest ih =>
    simp only [findNextAux]
    split_ifs with hmem hlt
    · rw [List.forall_mem_cons]
      simp [hmem, ih]
    · simp [List.forall_mem_cons, hmem, hlt]
    · rw [List.forall_mem_cons]
      simp [hmem, hlt, ih]

theorem findNextAux_some (tpl : DailyTemplate) (dates : List Int) (t : Int)
    (offs : List Nat) (r : Int) (h : findNextAux tpl dates t offs = some r) :
    ∃ off ∈ offs,
      (dateOf t + (off : Int)) ∉ dates ∧ t < r ∧ r = slotInstant tpl t off := by
  induction offs with
  | nil => simp [findNextAux] at h
  | cons off rest ih =>
    simp only [findNextAux] at h
    split_ifs at h with hmem hlt
    · obtain ⟨o, ho, h3⟩ := ih h
      exact ⟨o, List.mem_cons_of_mem _ ho, h3⟩
    · injection h with h
      exact ⟨off, List.mem_cons_self _ _, hmem, h ▸ hlt, h.symm⟩
    · obtain ⟨o, ho, h3⟩ := ih h
      exact ⟨o, List.mem_cons_of_mem _ ho, h3⟩

theorem mem_findAvailableSlotsAux (dates : List Int) (fuel : Nat) :
    ∀ (needed : Nat) (d s : Int),
      s ∈ findAvailableSlotsAux dates needed d fuel →
      ∃ d0, d0 ∉ dates ∧ d ≤ d0 ∧ s = d0 * 1440 + 1200 := by
  induction fuel with
  | zero => intro needed d s h; simp [findAvailableSlotsAux] at h
  | succ f ih =>
    intro needed d s h
    match needed with
    | 0 => simp [findAvailableSlotsAux] at h
    | n + 1 =>
      simp only [findAvailableSlotsAux] at h
      split_ifs at h with hmem
      · obtain ⟨d0, h1, h2, h3⟩ := ih _ _ _ h
        exact ⟨d0, h1, by omega, h3⟩
      · rcases List.mem_cons.mp h with h | h
        · exact ⟨d, hmem, le_refl _, h⟩
        · obtain ⟨d0, h1, h2, h3⟩ := ih _ _ _ h
          exact ⟨d0, h1, by omega, h3⟩

theorem slotInstant_future {tpl : DailyTemplate} (hv : validTemplate tpl)
    (t : Int) (off : Nat) (hoff : 1 ≤ off) : t < slotInstant tpl t off := by
  unfold slotInstant dateOf
  obtain ⟨hm0, _⟩ := timeFor_valid hv ((weekdayOf (t / 1440) + (off : Int)) % 7)
  have h1 : 1440 * (t / 1440) + t % 1440 = t := Int.ediv_add_emod t 1440
  have h2 : t % 1440 < 1440 := Int.emod_lt_of_pos t (by norm_num)
  omega

/-! ## Claim theorems for the allocator -/

/-- C3: for every allocation and every reservation returned by the fetch,
no allocated instant falls on the same local calendar date as the
reservation's scheduled time — both for the single instant returned by
`get_next_publish_time` and for every slot returned by
`get_schedule_for_videos`. -/
theorem C3_no_double_booking (tpl : DailyTemplate) (resv : List Reservation)
    (t : Int) (dayOffset : Nat) (hv : validTemplate tpl) :
    (∀ r, getNextPublishTime tpl resv t dayOffset = some r →
        ∀ v ∈ resv, dateOf r ≠ dateOf v.scheduledTime) ∧
    (∀ (n : Nat) (today : Int), ∀ s ∈ getScheduleForVideos resv n today,
        ∀ v ∈ resv, dateOf s ≠ dateOf v.scheduledTime) := by
  constructor
  · intro r hr v hvm heq
    simp only [getNextPublishTime] at hr
    obtain ⟨off, _, hnot, _, hslot⟩ :=
      findNextAux_some tpl (reservedDates resv) t _ r hr
    apply hnot
    have hdr : dateOf r = dateOf t + (off : Int) := by
      rw [hslot, dateOf_slotInstant hv]
    rw [← hdr, heq]
    exact List.mem_map_of_mem _ hvm
  · intro n today s hs v hvm heq
    obtain ⟨d0, hnot, _, rfl⟩ := mem_findAvailableSlotsAux _ _ _ _ _ hs
    apply hnot
    rw [dateOf_slot (by norm_num) (by norm_num)] at heq
    rw [heq]
    exact List.mem_map_of_mem _ hvm

/-- Witness for C3 at a concrete input: with one reservation on day 5,
`get_next_publish_time` from instant 0 returns minute 1200 (day 0),
whose date differs from the reservation's. -/
theorem C3_no_double_booking_witness :
    dateOf 1200 ≠ dateOf (Reservation.mk (5 * 1440 + 600) false).scheduledTime :=
  (C3_no_double_booking sampleTemplate [⟨5 * 1440 + 600, false⟩] 0 0
      (by decide)).1 1200 (by decide) _ (by decide)

/-- C4 counterexample: when the reservation fetch is unavailable,
`fetch_scheduled_videos` returns the empty list (lines 330-332,
424-426) and `get_next_publish_time` still returns an instant instead
of refusing to schedule. -/
theorem C4_counterexample :
    getNextPublishTime sampleTemplate fetchFailureResult 0 0 = some 1200 := by
  decide

/-- C4 (amended): when the external fetch is unavailable the fetch
returns the empty reservation list, and the allocator proceeds as if
zero reservations existed — for any valid template and any cursor it
still returns an instant. -/
theorem C4_fetch_failure_schedules_anyway (tpl : DailyTemplate) (t : Int)
    (hv : validTemplate tpl) :
    fetchFailureResult = ([] : List Reservation) ∧
      ∃ r, getNextPublishTime tpl fetchFailureResult t 0 = some r := by
  refine ⟨rfl, ?_⟩
  rw [← Option.ne_none_iff_exists']
  intro hnone
  simp only [getNextPublishTime] at hnone
  have h1 : (1 : Nat) ∈ (List.range 14).map
      (· + effectiveOffset fetchFailureResult (dateOf t) 0) :=
    List.mem_map.mpr ⟨1, by simp, rfl⟩
  rcases (findNextAux_none_iff tpl _ t _).mp hnone 1 h1 with h | h
  · simp [reservedDates, fetchFailureResult] at h
  · exact h (slotInstant_future hv t 1 le_rfl)

/-- Witness for C4's amended theorem at the all-20:00 template and
cursor 0. -/
theorem C4_fetch_failure_schedules_anyway_witness :
    fetchFailureResult = ([] : List Reservation) ∧
      ∃ r, getNextPublishTime sampleTemplate fetchFailureResult 0 0 = some r :=
  C4_fetch_failure_schedules_anyway sampleTemplate 0 (by decide)

/-- C5 counterexample: with a published video today (day 0) and
reservations on days 1-13, every one of the 14 consecutive days from
the cursor's date is reserved, yet `get_next_publish_time` does not
fail: the published-today bump shifts the window and it returns the
day-14 instant 21360. -/
theorem C5_counterexample :
    ((List.range 14).all fun k =>
        decide ((dateOf 0 + (k : Int)) ∈ reservedDates resvFullWindow)) = true ∧
      getNextPublishTime sampleTemplate resvFullWindow 0 0 = some 21360 := by
  decide

/-- C5 (amended): the slot search examines exactly the 14 consecutive
days starting `effectiveOffset` days after the cursor's date, where the
offset is raised to 1 when a published reservation falls on the
cursor's date; it returns `None` iff none of those days yields a
template instant strictly after the cursor on an unreserved date, and
any returned instant is the template instant of one of those 14 days. -/
theorem C5_horizon_characterization (tpl : DailyTemplate)
    (resv : List Reservation) (t : Int) (dayOffset : Nat) :
    (getNextPublishTime tpl resv t dayOffset = none ↔
      ∀ k ∈ List.range 14,
        (dateOf t + ((k + effectiveOffset resv (dateOf t) dayOffset : Nat) : Int))
            ∈ reservedDates resv ∨
          ¬ t < slotInstant tpl t (k + effectiveOffset resv (dateOf t) dayOffset)) ∧
    (∀ r, getNextPublishTime tpl resv t dayOffset = some r →
        ∃ k ∈ List.range 14,
          r = slotInstant tpl t (k + effectiveOffset resv (dateOf t) dayOffset)) := by
  constructor
  · simp only [getNextPublishTime]
    rw [findNextAux_none_iff]
    constructor
    · intro h k hk
      exact h _ (List.mem_map.mpr ⟨k, hk, rfl⟩)
    · intro h off hoff
      obtain ⟨k, hk, rfl⟩ := List.mem_map.mp hoff
      exact h k hk
  · intro r hr
    simp only [getNextPublishTime] at hr
    obtain ⟨off, hoff, _, _, hs⟩ := findNextAux_some _ _ _ _ _ hr
    obtain ⟨k, hk, rfl⟩ := List.mem_map.mp hoff
    exact ⟨k, hk, hs⟩

/-- Witness for C5's amended theorem: with no reservations the instant
returned from cursor 0 is the template instant of one of the 14
examined days. -/
theorem C5_horizon_characterization_witness :
    ∃ k ∈ List.range 14,
      (1200 : Int) = slotInstant sampleTemplate 0 (k + effectiveOffset [] (dateOf 0) 0) :=
  (C5_horizon_characterization sampleTemplate [] 0 0).2 1200 (by decide)

theorem chain_findAvailableSlotsAux (dates : List Int) (fuel : Nat) :
    ∀ (needed : Nat) (d : Int),
      List.Chain' (fun a b => a + 1440 ≤ b)
        (findAvailableSlotsAux dates needed d fuel) := by
  induction fuel with
  | zero => intro needed d; simp [findAvailableSlotsAux]
  | succ f ih =>
    intro needed d
    match needed with
    | 0 => simp [findAvailableSlotsAux]
    | n + 1 =>
      simp only [findAvailableSlotsAux]
      split_ifs with hmem
      · exact ih _ _
      · rw [List.chain'_cons']
        refine ⟨?_, ih _ _⟩
        intro y hy
        obtain ⟨d0, _, hle, rfl⟩ :=
          mem_findAvailableSlotsAux dates f n (d + 1) y (List.mem_of_mem_head? hy)
        omega

/-- C6 counterexample: with `min_interval_hours = 48`, two slots from
`get_schedule_for_videos` (zero reservations, cursor day 0) are only
24 hours apart — the parameter is never consulted. -/
theorem C6_counterexample :
    getScheduleForVideos [] 2 0 = [1200, 2640] ∧ (2640 - 1200 : Int) < 48 * 60 := by
  decide

/-- C6 (amended): the output of `get_schedule_for_videos` is strictly
increasing, with consecutive instants at least 24 hours (1440 minutes)
apart: slots sit on strictly increasing calendar days at the fixed time
20:00.  `min_interval_hours` is not consulted, so the claimed spacing
holds exactly when `min_interval_hours ≤ 24`. -/
theorem C6_schedule_spacing (resv : List Reservation) (numVideos : Nat)
    (today : Int) :
    List.Chain' (fun a b => a < b) (getScheduleForVideos resv numVideos today) ∧
      List.Chain' (fun a b => a + 1440 ≤ b)
        (getScheduleForVideos resv numVideos today) :=
  ⟨(chain_findAvailableSlotsAux _ _ _ _).imp fun a b h => by omega,
   chain_findAvailableSlotsAux _ _ _ _⟩

theorem hasBadGap_eq_false {l : List Int} (h : List.Sorted (· ≤ ·) l) :
    hasBadGap l = false := by
  induction l with
  | nil => rfl
  | cons a rest ih =>
    cases rest with
    | nil => rfl
    | cons b rest2 =>
      rw [List.sorted_cons] at h
      have hab : a ≤ b := h.1 b (by simp)
      have htail := ih h.2
      simp only [hasBadGap, htail, Bool.or_false, decide_eq_false_iff_not]
      omega

theorem weekViolation_eq_false_iff (maxPerWeek : Nat) (l : List Int) :
    weekViolation maxPerWeek l = false ↔
      ∀ t ∈ l, ((l.filter fun u => mondayOf u == mondayOf t).length ≤ maxPerWeek) := by
  unfold weekViolation
  rw [List.any_eq_false]
  constructor
  · intro h t ht
    have := h t ht
    simpa using this
  · intro h t ht
    simpa using h t ht

/-- C8: for a schedule containing at least one future instant,
`validate_schedule` succeeds iff, among the future instants it keeps, no
Monday-anchored week holds more than `max_videos_per_week` of them.  In
particular a week over quota forces `False`, gaps below
`min_interval_hours` never affect the result (the parameter does not
occur on the right-hand side), and the negative-gap tolerance is
trivially satisfied on the sorted schedule. -/
theorem C8_validate_schedule (now minIntervalHours : Int) (maxPerWeek : Nat)
    (schedule : List Int) (hfut : ∃ s ∈ schedule, now < s) :
    validateSchedule now minIntervalHours maxPerWeek schedule = true ↔
      ∀ t ∈ (schedule.insertionSort (· ≤ ·)).filter (fun s => now < s),
        ((((schedule.insertionSort (· ≤ ·)).filter (fun s => now < s)).filter
            fun u => mondayOf u == mondayOf t).length ≤ maxPerWeek) := by
  obtain ⟨s0, hs0, hlt⟩ := hfut
  have hmem : s0 ∈ schedule.insertionSort (· ≤ ·) :=
    (List.perm_insertionSort _ _).mem_iff.mpr hs0
  have hmemf : s0 ∈ (schedule.insertionSort (· ≤ ·)).filter (fun s => now < s) :=
    List.mem_filter.mpr ⟨hmem, by simpa using hlt⟩
  have hne1 : ¬ schedule.isEmpty = true := by
    rw [List.isEmpty_iff]
    exact List.ne_nil_of_mem hs0
  have hne2 : ¬ ((schedule.insertionSort (· ≤ ·)).filter
      fun s => now < s).isEmpty = true := by
    rw [List.isEmpty_iff]
    exact List.ne_nil_of_mem hmemf
  have hsorted : List.Sorted (· ≤ ·)
      ((schedule.insertionSort (· ≤ ·)).filter fun s => now < s) :=
    List.Pairwise.filter _ (List.sorted_insertionSort _ _)
  simp only [validateSchedule]
  rw [if_neg hne1, if_neg hne2, hasBadGap_eq_false hsorted]
  rw [show ∀ w : Bool, (if w = true then false else true) = !w by intro w; cases w <;> rfl]
  rw [if_neg Bool.false_ne_true, Bool.not_eq_true']
  rw [weekViolation_eq_false_iff]

/-- Witness for C8 at the concrete schedule `[100, 200]` from `now = 0`:
validation succeeds. -/
theorem C8_validate_schedule_witness :
    validateSchedule 0 4 8 [100, 200] = true :=
  (C8_validate_schedule 0 4 8 [100, 200] ⟨100, by decide, by decide⟩).mpr
    (by decide)

/-- C9 (bug evaluation): updating Monday to 21:00 (minute 1260) through
`update_schedule` changes the in-memory template, but re-loading the
persisted file yields the pre-mutation 20:00 value: `save_config`
writes the `schedule_config` section while `load_config` reads the
`schedule` section, so persistence does not round-trip. -/
theorem C9_persistence_not_roundtrip :
    ((updateSchedule .monday 1260 (loadConfig sampleConfigFile)
        sampleConfigFile).1).dailySchedule.monday = 1260 ∧
      (loadConfig ((updateSchedule .monday 1260 (loadConfig sampleConfigFile)
        sampleConfigFile).2)).dailySchedule.monday = 1200 := by
  decide

/-- C10: the fetch inspects only the single `maxResults=50` page of the
uploads playlist: it returns at most 50 entries, and every returned
entry carries the id of one of the first 50 playlist items — a video
beyond position 50 is never returned. -/
theorem C10_fetch_limited_to_50 (playlist : List YTVideo) (today : Int) :
    (fetchScheduledVideos playlist today).length ≤ 50 ∧
      ∀ r ∈ fetchScheduledVideos playlist today,
        ∃ v ∈ playlist.take 50, v.videoId = r.videoId := by
  constructor
  · unfold fetchScheduledVideos
    rw [(List.perm_insertionSort _ _).length_eq]
    calc ((playlist.take 50).filterMap (fetchEntry today)).length
        ≤ (playlist.take 50).length := List.length_filterMap_le _ _
      _ ≤ 50 := List.length_take_le _ _
  · intro r hr
    have hr2 : r ∈ (playlist.take 50).filterMap (fetchEntry today) :=
      (List.perm_insertionSort _ _).mem_iff.mp hr
    obtain ⟨v, hv, hev⟩ := List.mem_filterMap.mp hr2
    refine ⟨v, hv, ?_⟩
    unfold fetchEntry at hev
    cases hvt : videoTimeOf v with
    | none => rw [hvt] at hev; cases hev
    | some t0 =>
      rw [hvt] at hev
      dsimp only at hev
      split_ifs at hev with hd
      injection hev with hev
      rw [← hev]

/-- Witness for C10: a single-video playlist whose video is scheduled in
the future; the fetched entry's id is the id of one of the first 50
items. -/
theorem C10_fetch_limited_to_50_witness :
    ∃ v ∈ ([⟨7, some 5000, none, "private"⟩] : List YTVideo).take 50,
      v.videoId = 7 :=
  (C10_fetch_limited_to_50 [⟨7, some 5000, none, "private"⟩] 0).2
    ⟨7, 5000, false⟩ (by decide)

/-! ## Selector lemmas: duration bounds -/

theorem ensureMin_of_ge {T minD s e : ℚ} (h : ¬ e - s < minD) :
    ensureMinDuration T minD s e = (s, e) := by
  unfold ensureMinDuration
  rw [if_neg h]

theorem ensureMin_dur_eq {T minD s e : ℚ} (hT : minD ≤ T) (h : e - s < minD) :
    (ensureMinDuration T minD s e).2 - (ensureMinDuration T minD s e).1 = minD := by
  simp only [ensureMinDuration, if_pos h]
  split_ifs with h1 h2
  · dsimp only
    rw [h1, zero_add, min_eq_right hT, sub_zero]
  · dsimp only
    rw [h2, max_eq_right (by linarith : (0 : ℚ) ≤ T - minD)]
    ring
  · dsimp only
    have hs : max 0 (s - (minD - (e - s)) / 2) = s - (minD - (e - s)) / 2 := by
      rcases le_total (s - (minD - (e - s)) / 2) 0 with hle | hle
      · exact absurd (max_eq_left hle) h1
      · exact max_eq_right hle
    have he : min T (e + (minD - (e - s)) / 2) = e + (minD - (e - s)) / 2 := by
      rcases le_total T (e + (minD - (e - s)) / 2) with hle | hle
      · exact absurd (min_eq_left hle) h2
      · exact min_eq_right hle
    rw [hs, he]
    ring

theorem ensureMin_dur_lb {T minD : ℚ} (hT : minD ≤ T) (s e : ℚ) :
    minD ≤ (ensureMinDuration T minD s e).2 - (ensureMinDuration T minD s e).1 := by
  by_cases h : e - s < minD
  · rw [ensureMin_dur_eq hT h]
  · rw [ensureMin_of_ge h]
    dsimp only
    linarith [not_lt.mp h]

theorem ensureMin_dur_ub {T minD : ℚ} (hT : minD ≤ T) (s e : ℚ) :
    (ensureMinDuration T minD s e).2 - (ensureMinDuration T minD s e).1 ≤
      max (e - s) minD := by
  by_cases h : e - s < minD
  · rw [ensureMin_dur_eq hT h]
    exact le_max_right _ _
  · rw [ensureMin_of_ge h]
    exact le_max_left _ _

theorem trim_dur_ub (maxD s e : ℚ) :
    (trimToMax maxD s e).2 - (trimToMax maxD s e).1 ≤ maxD + maxExtension := by
  simp only [trimToMax]
  split_ifs with h
  · dsimp only
    linarith
  · dsimp only
    linarith [not_lt.mp h]

theorem finalizeClip_dur_ub (T minD maxD pad : ℚ) (c : Clip) :
    (finalizeClip T minD maxD pad c).stop - (finalizeClip T minD maxD pad c).start ≤
      maxD + maxExtension := by
  simp only [finalizeClip]
  exact trim_dur_ub _ _ _

theorem finalAdjust_dur_lb {T minD : ℚ} (hT : minD ≤ T) (c : Clip) :
    minD ≤ (finalAdjust T minD c).stop - (finalAdjust T minD c).start := by
  simp only [finalAdjust]
  exact ensureMin_dur_lb hT _ _

theorem finalAdjust_dur_ub {T minD maxD : ℚ} (hT : minD ≤ T)
    (hm : minD ≤ maxD + maxExtension) (c : Clip)
    (h : c.stop - c.start ≤ maxD + maxExtension) :
    (finalAdjust T minD c).stop - (finalAdjust T minD c).start ≤
      maxD + maxExtension := by
  simp only [finalAdjust]
  exact le_trans (ensureMin_dur_ub hT _ _) (max_le h hm)

theorem selStep_ub {keywords : List String} {T minD maxD pad : ℚ}
    {st : List Clip × Option Clip} {seg : Segment}
    (h : ∀ c ∈ st.1, c.stop - c.start ≤ maxD + maxExtension) :
    ∀ c ∈ (selStep keywords T minD maxD pad st seg).1,
      c.stop - c.start ≤ maxD + maxExtension := by
  obtain ⟨clips, cur⟩ := st
  simp only [selStep]
  split_ifs with hm
  · cases cur with
    | none => exact h
    | some c0 =>
      dsimp only
      split_ifs with hclose
      · exact h
      · intro c hc
        rcases List.mem_append.mp hc with hc | hc
        · exact h c hc
        · rw [List.mem_singleton.mp hc]
          exact finalizeClip_dur_ub _ _ _ _ _
  · exact h

theorem foldl_selStep_ub (keywords : List String) (T minD maxD pad : ℚ) :
    ∀ (segs : List Segment) (st : List Clip × Option Clip),
      (∀ c ∈ st.1, c.stop - c.start ≤ maxD + maxExtension) →
      ∀ c ∈ (segs.foldl (selStep keywords T minD maxD pad) st).1,
        c.stop - c.start ≤ maxD + maxExtension := by
  intro segs
  induction segs with
  | nil => intro st h; exact h
  | cons seg rest ih =>
    intro st h
    rw [List.foldl_cons]
    exact ih _ (selStep_ub h)

theorem finishLast_ub {T minD maxD pad : ℚ} {clips : List Clip}
    {cur : Option Clip}
    (h : ∀ c ∈ clips, c.stop - c.start ≤ maxD + maxExtension) :
    ∀ c ∈ finishLast T minD maxD pad clips cur,
      c.stop - c.start ≤ maxD + maxExtension := by
  unfold finishLast
  cases cur with
  | none => exact h
  | some c0 =>
    dsimp only
    cases hl : clips.getLast? with
    | none =>
      intro c hc
      rcases List.mem_append.mp hc with hc | hc
      · exact h c hc
      · rw [List.mem_singleton.mp hc]
        exact finalizeClip_dur_ub _ _ _ _ _
    | some last_clip =>
      dsimp only
      split_ifs with hmerge
      · intro c hc
        rcases List.mem_append.mp hc with hc | hc
        · exact h c ((List.dropLast_sublist _).subset hc)
        · rw [List.mem_singleton.mp hc]
          exact hmerge
      · intro c hc
        rcases List.mem_append.mp hc with hc | hc
        · exact h c hc
        · rw [List.mem_singleton.mp hc]
          exact finalizeClip_dur_ub _ _ _ _ _

theorem addIntro_ub {T minD maxD : ℚ} {clips : List Clip} (hT : minD ≤ T)
    (hm : minD ≤ maxD + maxExtension)
    (h : ∀ c ∈ clips, c.stop - c.start ≤ maxD + maxExtension) :
    ∀ c ∈ addIntro T minD maxD clips,
      c.stop - c.start ≤ maxD + maxExtension := by
  unfold addIntro
  cases hh : clips.head? with
  | none => exact h
  | some first =>
    dsimp only
    split_ifs with hfs
    · intro c hc
      rcases List.mem_cons.mp hc with hc | hc
      · rw [hc]
        dsimp only
        refine le_trans (ensureMin_dur_ub hT _ _) (max_le ?_ hm)
        rw [sub_zero]
        exact min_le_right _ _
      · exact h c hc
    · exact h

theorem addConclusion_ub {T minD maxD : ℚ} {clips : List Clip} (hT : minD ≤ T)
    (hm : minD ≤ maxD + maxExtension)
    (h : ∀ c ∈ clips, c.stop - c.start ≤ maxD + maxExtension) :
    ∀ c ∈ addConclusion T minD maxD clips,
      c.stop - c.start ≤ maxD + maxExtension := by
  unfold addConclusion
  cases hg : clips.getLast? with
  | none => exact h
  | some last_clip =>
    dsimp only
    split_ifs with hlast
    · intro c hc
      rcases List.mem_append.mp hc with hc | hc
      · exact h c hc
      · rw [List.mem_singleton.mp hc]
        dsimp only
        refine le_trans (ensureMin_dur_ub hT _ _) (max_le ?_ hm)
        have := le_max_right last_clip.stop (T - (maxD + maxExtension))
        linarith
    · exact h

theorem addEdges_ub {T minD maxD : ℚ} {clips : List Clip} (hT : minD ≤ T)
    (hm : minD ≤ maxD + maxExtension)
    (h : ∀ c ∈ clips, c.stop - c.start ≤ maxD + maxExtension) :
    ∀ c ∈ addEdges T minD maxD clips,
      c.stop - c.start ≤ maxD + maxExtension := by
  unfold addEdges
  cases hh : clips.head? with
  | none => exact h
  | some first =>
    dsimp only
    exact addConclusion_ub hT hm (addIntro_ub hT hm h)

/-! ## Claim theorems for the selector -/

/-- C1 counterexample: on a 5-second video
(`segments = [(0, 5, "hello world")]`, keyword "hello",
`min_duration = 15`), the selector outputs a clip of duration 5,
violating `min_duration ≤ end - start`. -/
theorem C1_counterexample :
    ((findClipsFromSrt [⟨0, 5, "hello world"⟩] ["hello"] 15 20 2).any
        fun c => decide (c.stop - c.start < 15)) = true := by
  norm_num [findClipsFromSrt, totalDuration, List.foldl, selStep, finishLast,
    addEdges, addIntro, addConclusion, finalAdjust, finalizeClip,
    ensureMinDuration, trimToMax, maxExtension, maxOverlap, max_def, min_def,
    segMatches, matchesKeywords, lowerChars, containsSub, List.isPrefixOf]

/-- C1 (amended): whenever the total duration (end of the last segment)
is at least `min_duration` and `min_duration ≤ max_duration + 5`, every
clip in the selector's output satisfies
`min_duration ≤ end - start ≤ max_duration + max_extension` (the code
fixes `max_extension = 5`). -/
theorem C1_duration_invariant (segments : List Segment)
    (keywords : List String) (min_duration max_duration padding : ℚ)
    (hm : min_duration ≤ max_duration + maxExtension)
    (hT : min_duration ≤ totalDuration segments) :
    ∀ c ∈ findClipsFromSrt segments keywords min_duration max_duration padding,
      min_duration ≤ c.stop - c.start ∧
        c.stop - c.start ≤ max_duration + maxExtension := by
  intro c hc
  simp only [findClipsFromSrt] at hc
  obtain ⟨c0, hc0, rfl⟩ := List.mem_map.mp hc
  refine ⟨finalAdjust_dur_lb hT c0, finalAdjust_dur_ub hT hm c0 ?_⟩
  exact addEdges_ub hT hm
    (finishLast_ub (foldl_selStep_ub _ _ _ _ _ segments ([], none) nofun)) c0 hc0

/-- Concrete selector run used by the C1 witness: a single 15-second
keyword segment yields the single clip `(0, 17)` (padding pushes the
end past the segment). -/
theorem findClips_single_eval :
    findClipsFromSrt [⟨0, 15, "hello"⟩] ["hello"] 15 20 2
      = [⟨0, 17, "hello".toLower⟩] := by
  norm_num [findClipsFromSrt, totalDuration, List.foldl, selStep, finishLast,
    addEdges, addIntro, addConclusion, finalAdjust, finalizeClip,
    ensureMinDuration, trimToMax, maxExtension, maxOverlap, max_def, min_def,
    segMatches, matchesKeywords, lowerChars, containsSub, List.isPrefixOf]

/-- Witness for C1's amended theorem: a single 15-second segment with
`min_duration = 15`, `max_duration = 20`, `padding = 2` yields the clip
`(0, 17)` whose duration lies in `[15, 25]`. -/
theorem C1_duration_invariant_witness :
    (15 : ℚ) ≤ (17 : ℚ) - 0 ∧ (17 : ℚ) - 0 ≤ 20 + maxExtension :=
  C1_duration_invariant [⟨0, 15, "hello"⟩] ["hello"] 15 20 2
    (by norm_num [maxExtension]) (by norm_num [totalDuration])
    ⟨0, 17, "hello".toLower⟩
    (by rw [findClips_single_eval]; exact List.mem_singleton_self _)

/-- C2 (bug evaluation): on `segsOverlapDemo` the selector outputs the
clips `(0, 15)`, `(3, 18)`, `(85, 100)`; the first two overlap for 12
seconds, far beyond `max_overlap = 5`.  The code never checks the
overlap of finished clips: `max_overlap` is only compared against the
gap between consecutive keyword segments. -/
theorem C2_overlap_violation :
    ((findClipsFromSrt segsOverlapDemo ["kw"] 15 20 2).map
        fun c => (c.start, c.stop)) = [(0, 15), (3, 18), (85, 100)] ∧
      min (15 : ℚ) 18 - max 0 3 > maxOverlap := by
  have hT : totalDuration segsOverlapDemo = 100 := by
    norm_num [totalDuration, segsOverlapDemo]
  have h1 : segsOverlapDemo.foldl (selStep ["kw"] 100 15 20 2) ([], none)
      = ([finalizeClip 100 15 20 2 ⟨0, 1, "kw a".toLower⟩,
          finalizeClip 100 15 20 2 ⟨10, 11, "kw b".toLower⟩],
         some ⟨99, 100, "kw c".toLower⟩) := by
    norm_num [segsOverlapDemo, List.foldl, selStep, segMatches, matchesKeywords,
      lowerChars, containsSub, List.isPrefixOf, maxOverlap]
  have h2 : finalizeClip 100 15 20 2 ⟨0, 1, "kw a".toLower⟩
      = ⟨0, 15, "kw a".toLower⟩ := by
    norm_num [finalizeClip, ensureMinDuration, trimToMax, maxExtension,
      max_def, min_def]
  have h3 : finalizeClip 100 15 20 2 ⟨10, 11, "kw b".toLower⟩
      = ⟨3, 18, "kw b".toLower⟩ := by
    norm_num [finalizeClip, ensureMinDuration, trimToMax, maxExtension,
      max_def, min_def]
  have h4 : finalizeClip 100 15 20 2 ⟨99, 100, "kw c".toLower⟩
      = ⟨85, 100, "kw c".toLower⟩ := by
    norm_num [finalizeClip, ensureMinDuration, trimToMax, maxExtension,
      max_def, min_def]
  refine ⟨?_, by norm_num [maxOverlap]⟩
  simp only [findClipsFromSrt, hT, h1]
  rw [h2, h3]
  norm_num [finishLast, List.getLast?, List.dropLast, h4, addEdges, addIntro,
    addConclusion, List.head?, finalAdjust, ensureMinDuration, trimToMax,
    maxExtension, max_def, min_def]

/-! ## Keyword acceptance lemmas (C7) -/

theorem selStep_no_match {keywords : List String} {T minD maxD pad : ℚ}
    {st : List Clip × Option Clip} {seg : Segment}
    (h : segMatches keywords seg = false) :
    selStep keywords T minD maxD pad st seg = st := by
  simp [selStep, h]

theorem selStep_nonempty_preserved {keywords : List String}
    {T minD maxD pad : ℚ} {st : List Clip × Option Clip} {seg : Segment}
    (h : stateNonempty st) :
    stateNonempty (selStep keywords T minD maxD pad st seg) := by
  obtain ⟨clips, cur⟩ := st
  simp only [selStep]
  split_ifs with hm
  · cases cur with
    | none => exact Or.inr (by simp)
    | some c =>
      dsimp only
      split_ifs <;> exact Or.inr (by simp)
  · exact h

theorem selStep_match_nonempty {keywords : List String} {T minD maxD pad : ℚ}
    {st : List Clip × Option Clip} {seg : Segment}
    (h : segMatches keywords seg = true) :
    stateNonempty (selStep keywords T minD maxD pad st seg) := by
  obtain ⟨clips, cur⟩ := st
  simp only [selStep, h, if_true]
  cases cur with
  | none => exact Or.inr (by simp)
  | some c =>
    dsimp only
    split_ifs <;> exact Or.inr (by simp)

theorem foldl_selStep_nonempty (keywords : List String) (T minD maxD pad : ℚ) :
    ∀ (segs : List Segment) (st : List Clip × Option Clip),
      stateNonempty st →
      stateNonempty (segs.foldl (selStep keywords T minD maxD pad) st) := by
  intro segs
  induction segs with
  | nil => exact fun st h => h
  | cons seg rest ih => exact fun st h => ih _ (selStep_nonempty_preserved h)

theorem foldl_selStep_empty_iff (keywords : List String) (T minD maxD pad : ℚ) :
    ∀ segs : List Segment,
      segs.foldl (selStep keywords T minD maxD pad) ([], none) = ([], none) ↔
        ∀ seg ∈ segs, segMatches keywords seg = false := by
  intro segs
  induction segs with
  | nil => simp
  | cons seg rest ih =>
    rw [List.foldl_cons, List.forall_mem_cons]
    cases hm : segMatches keywords seg with
    | false =>
      rw [selStep_no_match hm]
      simp [ih]
    | true =>
      constructor
      · intro h
        exfalso
        have hne := foldl_selStep_nonempty keywords T minD maxD pad rest _
          (@selStep_match_nonempty keywords T minD maxD pad ([], none) seg hm)
        rw [h] at hne
        rcases hne with h' | h' <;> exact h' rfl
      · rintro ⟨h1, -⟩
        cases h1

theorem finishLast_ne_nil {T minD maxD pad : ℚ} {clips : List Clip}
    {cur : Option Clip} (h : stateNonempty (clips, cur)) :
    finishLast T minD maxD pad clips cur ≠ [] := by
  unfold finishLast
  cases cur with
  | none =>
    rcases h with h | h
    · exact h
    · exact absurd rfl h
  | some c =>
    dsimp only
    cases hl : clips.getLast? with
    | none => simp
    | some last_clip =>
      dsimp only
      split_ifs <;> simp

theorem addIntro_ne_nil {T minD maxD : ℚ} {clips : List Clip}
    (h : clips ≠ []) : addIntro T minD maxD clips ≠ [] := by
  unfold addIntro
  cases hh : clips.head? with
  | none => exact h
  | some first =>
    dsimp only
    split_ifs
    · simp
    · exact h

theorem addConclusion_ne_nil {T minD maxD : ℚ} {clips : List Clip}
    (h : clips ≠ []) : addConclusion T minD maxD clips ≠ [] := by
  unfold addConclusion
  cases hg : clips.getLast? with
  | none => exact h
  | some last_clip =>
    dsimp only
    split_ifs
    · simp
    · exact h

theorem addEdges_ne_nil {T minD maxD : ℚ} {clips : List Clip}
    (h : clips ≠ []) : addEdges T minD maxD clips ≠ [] := by
  unfold addEdges
  cases hh : clips.head? with
  | none => exact h
  | some first =>
    dsimp only
    exact addConclusion_ne_nil (addIntro_ne_nil h)

/-- C7 counterexample: a high-scoring window (mean score 0.9, above a
0.3 threshold) without any keyword occurrence is not accepted: the code
selects on keyword containment only and never computes a window score. -/
theorem C7_counterexample :
    findClipsFromSrt [⟨0, 20, "hello"⟩] ["xyz"] 15 20 2 = [] ∧
      (3 / 10 : ℚ) < windowScore ["xyz"] [⟨0, 20, "hello", 9 / 10⟩] := by
  have hm : segMatches ["xyz"] (⟨0, 20, "hello"⟩ : Segment) = false := by decide
  constructor
  · norm_num [findClipsFromSrt, totalDuration, List.foldl, selStep, finishLast,
      addEdges, addIntro, addConclusion, finalAdjust, hm]
  · have hk : (containsSub (lowerChars "xyz") (lowerChars "hello")) = false := by
      decide
    norm_num [windowScore, hk]

/-- C7 (amended): the selector computes no window score and consults no
score threshold; its output is nonempty exactly when some segment's
text contains one of the keywords (case-insensitive substring test) —
equivalently, it returns the empty list iff no segment matches. -/
theorem C7_keyword_acceptance (segments : List Segment)
    (keywords : List String) (min_duration max_duration padding : ℚ) :
    findClipsFromSrt segments keywords min_duration max_duration padding = [] ↔
      ∀ seg ∈ segments, segMatches keywords seg = false := by
  simp only [findClipsFromSrt]
  rw [List.map_eq_nil_iff]
  rw [show ∀ st : List Clip × Option Clip,
      (addEdges (totalDuration segments) min_duration max_duration
        (finishLast (totalDuration segments) min_duration max_duration padding
          st.1 st.2) = []) ↔ st = ([], none) from ?_]
  · exact foldl_selStep_empty_iff _ _ _ _ _ segments
  · intro st
    obtain ⟨clips, cur⟩ := st
    constructor
    · intro h
      by_contra hne
      have hsn : stateNonempty (clips, cur) := by
        unfold stateNonempty
        dsimp only
        by_contra hno
        push_neg at hno
        exact hne (by rw [hno.1, hno.2])
      exact addEdges_ne_nil (finishLast_ne_nil hsn) h
    · intro h
      injection h with h1 h2
      rw [h1, h2]
      rfl

end AutomationTool
